import Mathlib

/-!
Shallow embedding of the 1337patch library (src/src/lib.rs): the data model,
line validation, hex decoding and the file-level parser, together with proofs
about the specified behaviour.

Rust strings are modelled as lists of characters; Rust byte indexing is
modelled through the UTF-8 size of each character, so that the byte-level
slicing behaviour of the source (including its panics on indices that are not
character boundaries) is captured faithfully.  A Rust function that can panic
is modelled with an outer `Option`: `none` is a panic.
-/

namespace PatchLib

/-- Decidable equality for `Except`, used to evaluate the model on concrete
inputs. -/
instance {ε α : Type _} [DecidableEq ε] [DecidableEq α] : DecidableEq (Except ε α) :=
  fun x y =>
    match x, y with
    | Except.ok a, Except.ok b =>
      if h : a = b then isTrue (by rw [h]) else isFalse (fun hh => h (by cases hh; rfl))
    | Except.ok _, Except.error _ => isFalse (fun hh => Except.noConfusion hh)
    | Except.error _, Except.ok _ => isFalse (fun hh => Except.noConfusion hh)
    | Except.error a, Except.error b =>
      if h : a = b then isTrue (by rw [h]) else isFalse (fun hh => h (by cases hh; rfl))

/-- Rust `String` / `&str`, as its sequence of characters. -/
abbrev RustStr := List Char

/-- Number of bytes of the UTF-8 encoding of a character. -/
def charSize (c : Char) : Nat :=
  if c.toNat ≤ 0x7F then 1
  else if c.toNat ≤ 0x7FF then 2
  else if c.toNat ≤ 0xFFFF then 3
  else 4

/-- Rust `str::len`: length in bytes of the UTF-8 encoding. -/
def utf8Len (s : RustStr) : Nat := (s.map charSize).sum

/-- Drop `n` leading bytes from a string.  `none` when `n` is not a character
boundary (Rust slicing panics there) or exceeds the byte length. -/
def byteDrop : RustStr → Nat → Option RustStr
  | s, 0 => some s
  | [], _ + 1 => none
  | c :: s, n + 1 =>
    if charSize c ≤ n + 1 then byteDrop s (n + 1 - charSize c) else none

/-- Take the first `n` bytes of a string.  `none` when `n` is not a character
boundary or exceeds the byte length. -/
def byteTake : RustStr → Nat → Option RustStr
  | _, 0 => some []
  | [], _ + 1 => none
  | c :: s, n + 1 =>
    if charSize c ≤ n + 1 then (byteTake s (n + 1 - charSize c)).map (fun t => c :: t)
    else none

/-- Rust `&s[a..b]` for `a ≤ b`: `none` models the boundary panic. -/
def byteSlice (s : RustStr) (a b : Nat) : Option RustStr :=
  match byteDrop s a with
  | none => none
  | some r => byteTake r (b - a)

/-- Rust `char::is_digit(16)`: `0`-`9` (48-57), `a`-`f` (97-102), `A`-`F` (65-70). -/
def isRustHexDigit (c : Char) : Bool :=
  (48 ≤ c.toNat && c.toNat ≤ 57) || (97 ≤ c.toNat && c.toNat ≤ 102)
    || (65 ≤ c.toNat && c.toNat ≤ 70)

/-- Numeric value of a hex digit (0 on a non-digit; only used on digits). -/
def hexDigitVal (c : Char) : Nat :=
  if 48 ≤ c.toNat ∧ c.toNat ≤ 57 then c.toNat - 48
  else if 97 ≤ c.toNat ∧ c.toNat ≤ 102 then c.toNat - 87
  else if 65 ≤ c.toNat ∧ c.toNat ≤ 70 then c.toNat - 55
  else 0

/-- Value of a string of hex digits, most significant first. -/
def hexValue (s : RustStr) : Nat := s.foldl (fun a c => a * 16 + hexDigitVal c) 0

/-- Rust `char::is_whitespace`: the Unicode `White_Space` code points. -/
def rustIsWhitespace (c : Char) : Bool :=
  c.toNat = 0x09 || c.toNat = 0x0A || c.toNat = 0x0B || c.toNat = 0x0C
    || c.toNat = 0x0D || c.toNat = 0x20 || c.toNat = 0x85 || c.toNat = 0xA0
    || c.toNat = 0x1680 || (0x2000 ≤ c.toNat && c.toNat ≤ 0x200A)
    || c.toNat = 0x2028 || c.toNat = 0x2029 || c.toNat = 0x202F
    || c.toNat = 0x205F || c.toNat = 0x3000

/-- Rust `str::trim_end`: remove all trailing whitespace characters. -/
def rustTrimEnd (s : RustStr) : RustStr :=
  (s.reverse.dropWhile rustIsWhitespace).reverse

/-- The observable content of a boxed `dyn Error` cause: which error it is
(`kind`) and its `Display`/`to_string()` rendering (`msg`). -/
structure ErrorCause where
  kind : String
  msg : String
deriving DecidableEq

/-- `PreviousError` (src/src/lib.rs:9-18): operation name, source file, line,
and the wrapped underlying error. -/
structure PreviousError where
  function : String
  filename : String
  line : Nat
  error : ErrorCause
deriving DecidableEq

/-- `PreviousError::new` (src/src/lib.rs:39-41). -/
def PreviousError.new (function : String) (filename : String) (line : Nat)
    (error : ErrorCause) : PreviousError :=
  PreviousError.mk function filename line error

/-- `PatchFileError` (src/src/lib.rs:49-68). -/
inductive PatchFileError where
  | ConvertionError (e : PreviousError)
  | ReadError (e : PreviousError)
  | WrongFormat
deriving DecidableEq

/-- `PatchFileError::new_convertion_error` (src/src/lib.rs:85-87). -/
def PatchFileError.new_convertion_error (function : String) (filename : String)
    (line : Nat) (error : ErrorCause) : PatchFileError :=
  PatchFileError.ConvertionError (PreviousError.new function filename line error)

/-- `PatchFileError::new_read_error` (src/src/lib.rs:103-105). -/
def PatchFileError.new_read_error (function : String) (filename : String)
    (line : Nat) (error : ErrorCause) : PatchFileError :=
  PatchFileError.ReadError (PreviousError.new function filename line error)

/-- `impl PartialEq for PatchFileError` (src/src/lib.rs:120-143): same-kind
errors compare `e.error.to_string() == e2.error.to_string()`. -/
def PatchFileError.eq : PatchFileError → PatchFileError → Bool
  | PatchFileError.ConvertionError e, PatchFileError.ConvertionError e2 =>
      e.error.msg == e2.error.msg
  | PatchFileError.ConvertionError _, _ => false
  | PatchFileError.ReadError e, PatchFileError.ReadError e2 =>
      e.error.msg == e2.error.msg
  | PatchFileError.ReadError _, _ => false
  | PatchFileError.WrongFormat, PatchFileError.WrongFormat => true
  | PatchFileError.WrongFormat, _ => false

/-- `HexPatch` (src/src/lib.rs:155-162).  `target_address` is a `u64`, `old`
and `new` are `u8`; the parser only ever stores in-range values.  The Rust
constructor `HexPatch::new` is the plain record constructor (in Lean the name
`HexPatch.new` is taken by the field projection, so `HexPatch.mk` plays its
role). -/
structure HexPatch where
  target_address : Nat
  old : Nat
  new : Nat
deriving DecidableEq

/-- `impl Debug for HexPatch` (src/src/lib.rs:198-202) writes
`{:016X}:{:02X}->{:02X}`; `padHex w n` is the `w`-digit zero-padded uppercase
hex rendering used there. -/
def hexDigitUpper (d : Nat) : Char :=
  if d < 10 then Char.ofNat (48 + d) else Char.ofNat (55 + d)

/-- Zero-padded fixed-width uppercase hex rendering (`{:0wX}` for values that
fit in `w` digits). -/
def padHex : Nat → Nat → RustStr
  | 0, _ => []
  | w + 1, n => padHex w (n / 16) ++ [hexDigitUpper (n % 16)]

/-- Canonical 23-character rendering of a `HexPatch`, after
`impl Debug for HexPatch` (src/src/lib.rs:198-202). -/
def HexPatch.render (p : HexPatch) : RustStr :=
  padHex 16 p.target_address ++ ':' :: (padHex 2 p.old ++ '-' :: '>' :: padHex 2 p.new)

/-- `F1337Patch` (src/src/lib.rs:222-227). -/
structure F1337Patch where
  target_filename : RustStr
  patches : List HexPatch
deriving DecidableEq

/-- Error kinds of `std::num::ParseIntError` reachable from `from_str_radix`
on an unsigned type. -/
inductive IntErrorKind where
  | empty
  | invalidDigit
  | posOverflow
deriving DecidableEq

/-- `Display` rendering of a `ParseIntError`, by kind. -/
def intErrorMsg : IntErrorKind → String
  | IntErrorKind.empty => "cannot parse integer from empty string"
  | IntErrorKind.invalidDigit => "invalid digit found in string"
  | IntErrorKind.posOverflow => "number too large to fit in target type"

/-- Digit-accumulation loop of `from_str_radix` with radix 16 on an unsigned
`bits`-bit integer: each step multiplies by the radix and adds the digit with
overflow checks. -/
def radixLoop (bits : Nat) : Nat → RustStr → Except IntErrorKind Nat
  | acc, [] => Except.ok acc
  | acc, c :: cs =>
    if isRustHexDigit c then
      if acc * 16 + hexDigitVal c < 2 ^ bits then
        radixLoop bits (acc * 16 + hexDigitVal c) cs
      else Except.error IntErrorKind.posOverflow
    else Except.error IntErrorKind.invalidDigit

/-- Sign handling of `from_str_radix` on an unsigned type: an optional
leading `+` is skipped. -/
def stripPlus : RustStr → RustStr
  | '+' :: rest => rest
  | s => s

/-- `uN::from_str_radix(s, 16)` for an unsigned `bits`-bit integer: empty
input is an error, an optional leading `+` is allowed, then at least one
digit, accumulated with overflow checking. -/
def from_str_radix16 (bits : Nat) (s : RustStr) : Except IntErrorKind Nat :=
  if s.isEmpty then Except.error IntErrorKind.empty
  else
    let digits := stripPlus s
    if digits.isEmpty then Except.error IntErrorKind.invalidDigit
    else radixLoop bits 0 digits

/-- `F1337Patch::check_patch_line_format` (src/src/lib.rs:314-337).  The Rust
code byte-slices `line[16..17]`, `line[19..21]`, `line[0..16]`, `line[17..19]`,
`line[21..23]`; a slice at an index that is not a character boundary panics,
modelled by `none`. -/
def F1337Patch.check_patch_line_format (line : RustStr) :
    Option (Except PatchFileError Unit) :=
  if utf8Len line ≠ 23 then some (Except.error PatchFileError.WrongFormat)
  else match byteSlice line 16 17 with
  | none => none
  | some s1 =>
    if s1 ≠ [':'] then some (Except.error PatchFileError.WrongFormat)
    else match byteSlice line 19 21 with
    | none => none
    | some s2 =>
      if s2 ≠ ['-', '>'] then some (Except.error PatchFileError.WrongFormat)
      else match byteSlice line 0 16 with
      | none => none
      | some s3 =>
        if ¬ s3.all isRustHexDigit then some (Except.error PatchFileError.WrongFormat)
        else match byteSlice line 17 19 with
        | none => none
        | some s4 =>
          if ¬ s4.all isRustHexDigit then some (Except.error PatchFileError.WrongFormat)
          else match byteSlice line 21 23 with
          | none => none
          | some s5 =>
            if ¬ s5.all isRustHexDigit then some (Except.error PatchFileError.WrongFormat)
            else some (Except.ok ())

/-- `F1337Patch::get_hex_patch_from_line` (src/src/lib.rs:356-375): validate,
then parse address (`u64`, a failure is wrapped as `ConvertionError` built at
src/src/lib.rs:363), old and new (`u8`, failures coerced to `WrongFormat`). -/
def F1337Patch.get_hex_patch_from_line (line : RustStr) :
    Option (Except PatchFileError HexPatch) :=
  match F1337Patch.check_patch_line_format line with
  | none => none
  | some (Except.error e) => some (Except.error e)
  | some (Except.ok _) =>
    match byteSlice line 0 16 with
    | none => none
    | some sa =>
      match from_str_radix16 64 sa with
      | Except.error e =>
          some (Except.error (PatchFileError.new_convertion_error
            "F1337Patch::get_hex_patch_from_line" "src/lib.rs" 363
            (ErrorCause.mk "ParseIntError" (intErrorMsg e))))
      | Except.ok address =>
        match byteSlice line 17 19 with
        | none => none
        | some so =>
          match from_str_radix16 8 so with
          | Except.error _ => some (Except.error PatchFileError.WrongFormat)
          | Except.ok old =>
            match byteSlice line 21 23 with
            | none => none
            | some sn =>
              match from_str_radix16 8 sn with
              | Except.error _ => some (Except.error PatchFileError.WrongFormat)
              | Except.ok new => some (Except.ok (HexPatch.mk address old new))

/-- `F1337Patch::get_filename` (src/src/lib.rs:379-391): first character must
be `>`, the rest is `first_line[1..].trim_end()`.  The `size` argument only
presets a string capacity in the source and has no observable effect. -/
def F1337Patch.get_filename (first_line : RustStr) (size : Nat) :
    Except PatchFileError RustStr :=
  match first_line with
  | '>' :: rest => Except.ok (rustTrimEnd rest)
  | _ => Except.error PatchFileError.WrongFormat

/-- `BufRead::read_line`: consume up to and including the first `\n` (or the
whole remainder); returns the line (terminator kept) and the rest. -/
def readLine : RustStr → RustStr × RustStr
  | [] => ([], [])
  | c :: s =>
    if c = '\n' then ([c], s)
    else
      let p := readLine s
      (c :: p.1, p.2)

/-- Terminator stripping done by `BufRead::lines`: remove one trailing `\n`,
and then one trailing `\r` when that `\n` was present. -/
def stripLineEnd (l : RustStr) : RustStr :=
  match l.reverse with
  | '\n' :: '\r' :: t => t.reverse
  | '\n' :: t => t.reverse
  | _ => l

/-- Iteration of `BufRead::lines` with explicit fuel (each step consumes at
least one character, so `s.length` steps always suffice). -/
def rustLinesFuel : Nat → RustStr → List RustStr
  | 0, _ => []
  | _ + 1, [] => []
  | fuel + 1, c :: s =>
    stripLineEnd (readLine (c :: s)).1 :: rustLinesFuel fuel (readLine (c :: s)).2

/-- `BufRead::lines`: the remaining input split into terminator-stripped
lines; no final empty line after a trailing `\n`. -/
def rustLines (s : RustStr) : List RustStr := rustLinesFuel s.length s

/-- The patch-accumulation loop of `F1337Patch::new` (src/src/lib.rs:279-290)
over the already-split remaining lines. -/
def processLines : List RustStr → Option (Except PatchFileError (List HexPatch))
  | [] => some (Except.ok [])
  | l :: ls =>
    match F1337Patch.get_hex_patch_from_line l with
    | none => none
    | some (Except.error e) => some (Except.error e)
    | some (Except.ok p) =>
      match processLines ls with
      | none => none
      | some (Except.error e) => some (Except.error e)
      | some (Except.ok ps) => some (Except.ok (p :: ps))

/-- `F1337Patch::new` (src/src/lib.rs:265-296) on a pure in-memory source
(seek to start and I/O read errors do not arise on a pure source): read the
header line, extract the filename, then convert every remaining line.  `none`
models a panic escaping from line validation. -/
def F1337Patch.new (patchfile : RustStr) : Option (Except PatchFileError F1337Patch) :=
  match F1337Patch.get_filename (readLine patchfile).1 (utf8Len (readLine patchfile).1) with
  | Except.error e => some (Except.error e)
  | Except.ok target_filename =>
    match processLines (rustLines (readLine patchfile).2) with
    | none => none
    | some (Except.error e) => some (Except.error e)
    | some (Except.ok patches) => some (Except.ok (F1337Patch.mk target_filename patches))

/-- The line grammar of the spec, stated over character positions exactly as the
claims word it: 23 characters, `:` at position 16, `->` at positions 19-20,
and hex digits at positions 0-15, 17-18, 21-22. -/
def lineValidSpec (l : RustStr) : Bool :=
  (l.length == 23)
    && ((l.drop 16).take 1 == [':'])
    && ((l.drop 19).take 2 == ['-', '>'])
    && (l.take 16).all isRustHexDigit
    && ((l.drop 17).take 2).all isRustHexDigit
    && ((l.drop 21).take 2).all isRustHexDigit

/-- The decoding the spec describes of a validated patch line: address from positions
[0,16), old from [17,19), new from [21,23), each read as hexadecimal. -/
def specDecode (l : RustStr) : HexPatch :=
  HexPatch.mk (hexValue (l.take 16)) (hexValue ((l.drop 17).take 2))
    (hexValue ((l.drop 21).take 2))

/-- Modelled from the spec: the construction API (`new(target_filename)` and
`add_patch`) belongs to the newer generation of the library and is absent from
src/src/lib.rs; per the spec, `new(target_filename)` creates an empty patch
set with zero entries and always succeeds.  Named `newFromFilename` because
`F1337Patch.new` is the parser of the generation present in src. -/
def F1337Patch.newFromFilename (target_filename : RustStr) : F1337Patch :=
  F1337Patch.mk target_filename []

/-- Modelled from the spec: `add_patch(patch)` appends the given `HexPatch` to
the end of the ordered sequence; no deduplication, no validation; mutates only
the receiver. -/
def F1337Patch.add_patch (self : F1337Patch) (patch : HexPatch) : F1337Patch :=
  F1337Patch.mk self.target_filename (self.patches ++ [patch])

/-! ### Basic facts about UTF-8 sizes and byte slicing -/

theorem charSize_pos (c : Char) : 0 < charSize c := by
  unfold charSize
  split
  · omega
  · split
    · omega
    · split <;> omega

theorem utf8Len_nil : utf8Len ([] : RustStr) = 0 := rfl

theorem utf8Len_cons (c : Char) (s : RustStr) :
    utf8Len (c :: s) = charSize c + utf8Len s := by
  simp [utf8Len]

theorem utf8Len_append (a b : RustStr) :
    utf8Len (a ++ b) = utf8Len a + utf8Len b := by
  simp [utf8Len]

theorem eq_nil_of_utf8Len_eq_zero {l : RustStr} (h : utf8Len l = 0) : l = [] := by
  cases l with
  | nil => rfl
  | cons c s =>
    exfalso
    have hc := charSize_pos c
    rw [utf8Len_cons] at h
    omega

theorem isRustHexDigit_toNat {c : Char} (h : isRustHexDigit c = true) :
    (48 ≤ c.toNat ∧ c.toNat ≤ 57) ∨ (97 ≤ c.toNat ∧ c.toNat ≤ 102)
      ∨ (65 ≤ c.toNat ∧ c.toNat ≤ 70) := by
  simp [isRustHexDigit] at h
  omega

theorem charSize_of_hex {c : Char} (h : isRustHexDigit c = true) : charSize c = 1 := by
  have hb := isRustHexDigit_toNat h
  unfold charSize
  split
  · rfl
  · exfalso; omega

theorem hex_ne_newline {c : Char} (h : isRustHexDigit c = true) : c ≠ '\n' := by
  intro he; subst he; exact absurd h (by decide)

theorem hex_ne_cr {c : Char} (h : isRustHexDigit c = true) : c ≠ '\r' := by
  intro he; subst he; exact absurd h (by decide)

theorem hex_ne_plus {c : Char} (h : isRustHexDigit c = true) : c ≠ '+' := by
  intro he; subst he; exact absurd h (by decide)

theorem utf8Len_ascii {l : RustStr} (h : ∀ c ∈ l, charSize c = 1) :
    utf8Len l = l.length := by
  induction l with
  | nil => rfl
  | cons c s ih =>
    have hc := h c (List.mem_cons_self c s)
    have ihA := ih (fun d hd => h d (List.mem_cons_of_mem c hd))
    simp [utf8Len_cons, hc, ihA]
    omega

theorem ascii_byteDrop {l : RustStr} (h : ∀ c ∈ l, charSize c = 1) :
    ∀ n, n ≤ l.length → byteDrop l n = some (l.drop n) := by
  induction l with
  | nil =>
    intro n hn
    have : n = 0 := Nat.le_zero.mp hn
    subst this; rfl
  | cons c s ih =>
    intro n hn
    cases n with
    | zero => rfl
    | succ m =>
      have hc := h c (List.mem_cons_self c s)
      have ihA := ih (fun d hd => h d (List.mem_cons_of_mem c hd))
      show byteDrop (c :: s) (m + 1) = some ((c :: s).drop (m + 1))
      unfold byteDrop
      rw [if_pos (by omega)]
      rw [hc]
      simpa using ihA m (by simpa using hn)

theorem ascii_byteTake {l : RustStr} (h : ∀ c ∈ l, charSize c = 1) :
    ∀ n, n ≤ l.length → byteTake l n = some (l.take n) := by
  induction l with
  | nil =>
    intro n hn
    have : n = 0 := Nat.le_zero.mp hn
    subst this; rfl
  | cons c s ih =>
    intro n hn
    cases n with
    | zero => rfl
    | succ m =>
      have hc := h c (List.mem_cons_self c s)
      have ihA := ih (fun d hd => h d (List.mem_cons_of_mem c hd))
      show byteTake (c :: s) (m + 1) = some ((c :: s).take (m + 1))
      unfold byteTake
      rw [if_pos (by omega)]
      rw [hc]
      simp only [Nat.add_sub_cancel]
      rw [ihA m (by simpa using hn)]
      rfl

theorem ascii_byteSlice {l : RustStr} (h : ∀ c ∈ l, charSize c = 1) {a b : Nat}
    (hab : a ≤ b) (hb : b ≤ l.length) :
    byteSlice l a b = some ((l.drop a).take (b - a)) := by
  unfold byteSlice
  rw [ascii_byteDrop h a (le_trans hab hb)]
  exact ascii_byteTake (fun c hc => h c (List.mem_of_mem_drop hc)) (b - a)
    (by rw [List.length_drop]; omega)

theorem byteDrop_spec : ∀ (l : RustStr) (n : Nat) (r : RustStr),
    byteDrop l n = some r → ∃ a, l = a ++ r ∧ utf8Len a = n := by
  intro l
  induction l with
  | nil =>
    intro n r h
    cases n with
    | zero =>
      simp [byteDrop] at h
      exact ⟨[], by simp [h], rfl⟩
    | succ m => simp [byteDrop] at h
  | cons c s ih =>
    intro n r h
    cases n with
    | zero =>
      simp [byteDrop] at h
      exact ⟨[], by simp [h], rfl⟩
    | succ m =>
      unfold byteDrop at h
      split at h
      · obtain ⟨a, ha, hl⟩ := ih _ _ h
        refine ⟨c :: a, by simp [ha], ?_⟩
        rw [utf8Len_cons, hl]
        omega
      · exact absurd h (by simp)

theorem byteTake_spec : ∀ (l : RustStr) (n : Nat) (a : RustStr),
    byteTake l n = some a → ∃ r, l = a ++ r ∧ utf8Len a = n := by
  intro l
  induction l with
  | nil =>
    intro n a h
    cases n with
    | zero =>
      have ha : a = [] := by
        have h2 : (some [] : Option RustStr) = some a := h
        simpa using h2.symm
      subst ha
      exact ⟨[], rfl, rfl⟩
    | succ m => simp [byteTake] at h
  | cons c s ih =>
    intro n a h
    cases n with
    | zero =>
      have ha : a = [] := by
        have h2 : (some [] : Option RustStr) = some a := h
        simpa using h2.symm
      subst ha
      exact ⟨c :: s, rfl, rfl⟩
    | succ m =>
      unfold byteTake at h
      split at h
      · rename_i hcs
        rw [Option.map_eq_some'] at h
        obtain ⟨t, ht, rfl⟩ := h
        obtain ⟨r, hr, hl⟩ := ih _ _ ht
        refine ⟨r, by simp [hr], ?_⟩
        rw [utf8Len_cons, hl]
        omega
      · exact absurd h (by simp)

theorem append_inj_utf8Len : ∀ {a a' r r' : RustStr},
    a ++ r = a' ++ r' → utf8Len a = utf8Len a' → a = a' ∧ r = r' := by
  intro a
  induction a with
  | nil =>
    intro a' r r' he hl
    have : a' = [] := eq_nil_of_utf8Len_eq_zero (by rw [← hl]; rfl)
    subst this
    exact ⟨rfl, he⟩
  | cons c t ih =>
    intro a' r r' he hl
    cases a' with
    | nil =>
      exfalso
      have hc := charSize_pos c
      rw [utf8Len_cons] at hl
      have : utf8Len ([] : RustStr) = 0 := rfl
      omega
    | cons c' t' =>
      simp only [List.cons_append, List.cons.injEq] at he
      obtain ⟨rfl, he2⟩ := he
      rw [utf8Len_cons, utf8Len_cons] at hl
      obtain ⟨rfl, rfl⟩ := ih he2 (by omega)
      exact ⟨rfl, rfl⟩

theorem byteSlice_spec {l x : RustStr} {i j : Nat} (h : byteSlice l i j = some x) :
    ∃ a b, l = a ++ x ++ b ∧ utf8Len a = i ∧ utf8Len x = j - i := by
  unfold byteSlice at h
  split at h
  · exact absurd h (by simp)
  · rename_i r hr
    obtain ⟨a, ha, hla⟩ := byteDrop_spec _ _ _ hr
    obtain ⟨b, hb, hlx⟩ := byteTake_spec _ _ _ h
    exact ⟨a, b, by simp [ha, hb], hla, hlx⟩

/-! ### Hex digit accumulation and `from_str_radix` -/

theorem hexDigitVal_lt (c : Char) : hexDigitVal c < 16 := by
  unfold hexDigitVal
  split
  · omega
  · split
    · omega
    · split <;> omega

theorem foldlHex_ge (l : RustStr) :
    ∀ acc, acc ≤ l.foldl (fun a c => a * 16 + hexDigitVal c) acc := by
  induction l with
  | nil => intro acc; exact Nat.le_refl acc
  | cons c t ih =>
    intro acc
    have h1 : acc ≤ acc * 16 + hexDigitVal c := by omega
    calc acc ≤ acc * 16 + hexDigitVal c := h1
      _ ≤ t.foldl (fun a c => a * 16 + hexDigitVal c) (acc * 16 + hexDigitVal c) := ih _
      _ = (c :: t).foldl (fun a c => a * 16 + hexDigitVal c) acc := by rw [List.foldl_cons]

theorem foldlHex_lt (l : RustStr) :
    ∀ acc, l.all isRustHexDigit = true →
      l.foldl (fun a c => a * 16 + hexDigitVal c) acc < (acc + 1) * 16 ^ l.length := by
  induction l with
  | nil => intro acc _; simp
  | cons c t ih =>
    intro acc hall
    rw [List.all_cons, Bool.and_eq_true] at hall
    have hd : hexDigitVal c < 16 := hexDigitVal_lt c
    rw [List.foldl_cons]
    have h1 := ih (acc * 16 + hexDigitVal c) hall.2
    have h2 : (acc * 16 + hexDigitVal c + 1) * 16 ^ t.length ≤ (acc + 1) * 16 ^ (c :: t).length := by
      have h3 : acc * 16 + hexDigitVal c + 1 ≤ (acc + 1) * 16 := by omega
      calc (acc * 16 + hexDigitVal c + 1) * 16 ^ t.length
          ≤ (acc + 1) * 16 * 16 ^ t.length := Nat.mul_le_mul_right _ h3
        _ = (acc + 1) * 16 ^ (c :: t).length := by
            rw [List.length_cons, pow_succ]; ring
    exact lt_of_lt_of_le h1 h2

theorem hexValue_lt {l : RustStr} (h : l.all isRustHexDigit = true) :
    hexValue l < 16 ^ l.length := by
  have := foldlHex_lt l 0 h
  simpa [hexValue] using this

theorem radixLoop_ok (bits : Nat) : ∀ (l : RustStr) (acc : Nat),
    l.all isRustHexDigit = true →
    l.foldl (fun a c => a * 16 + hexDigitVal c) acc < 2 ^ bits →
    radixLoop bits acc l =
      Except.ok (l.foldl (fun a c => a * 16 + hexDigitVal c) acc) := by
  intro l
  induction l with
  | nil => intro acc _ _; rfl
  | cons c t ih =>
    intro acc hall hlt
    rw [List.all_cons, Bool.and_eq_true] at hall
    rw [List.foldl_cons] at hlt
    have hge := foldlHex_ge t (acc * 16 + hexDigitVal c)
    unfold radixLoop
    rw [if_pos hall.1, if_pos (by omega)]
    rw [ih _ hall.2 hlt]
    rw [List.foldl_cons]

theorem from_str_radix16_hex {bits : Nat} {s : RustStr} (hne : s ≠ [])
    (hhex : s.all isRustHexDigit = true) (hlt : hexValue s < 2 ^ bits) :
    from_str_radix16 bits s = Except.ok (hexValue s) := by
  obtain ⟨c, t, rfl⟩ : ∃ c t, s = c :: t := by
    cases s with
    | nil => exact absurd rfl hne
    | cons c t => exact ⟨c, t, rfl⟩
  rw [List.all_cons, Bool.and_eq_true] at hhex
  have hplus : c ≠ '+' := hex_ne_plus hhex.1
  have hstrip : stripPlus (c :: t) = c :: t := by
    unfold stripPlus
    split
    · rename_i heq
      exact absurd (List.head_eq_of_cons_eq heq.symm).symm hplus
    · rfl
  unfold from_str_radix16
  rw [if_neg (by simp)]
  simp only [hstrip]
  rw [if_neg (by simp)]
  have hrl := radixLoop_ok bits (c :: t) 0
    (by rw [List.all_cons, Bool.and_eq_true]; exact hhex)
    (by simpa [hexValue] using hlt)
  simpa [hexValue] using hrl

/-! ### Structure of lines accepted by `check_patch_line_format` -/

theorem hex_all_ascii {A : RustStr} (h : A.all isRustHexDigit = true) :
    ∀ c ∈ A, charSize c = 1 :=
  fun c hc => charSize_of_hex (List.all_eq_true.mp h c hc)

theorem hex_all_len {A : RustStr} {n : Nat} (h : A.all isRustHexDigit = true)
    (hl : utf8Len A = n) : A.length = n := by
  rw [← utf8Len_ascii (hex_all_ascii h)]
  exact hl

/-- Every line accepted by the validator decomposes into 16 hex digits, `:`,
2 hex digits, `->`, 2 hex digits. -/
theorem check_ok_decomp {l : RustStr}
    (h : F1337Patch.check_patch_line_format l = some (Except.ok ())) :
    ∃ A B C, l = A ++ ':' :: (B ++ '-' :: '>' :: C)
      ∧ A.all isRustHexDigit = true ∧ B.all isRustHexDigit = true
      ∧ C.all isRustHexDigit = true
      ∧ A.length = 16 ∧ B.length = 2 ∧ C.length = 2 := by
  unfold F1337Patch.check_patch_line_format at h
  split at h
  · exact absurd h (by simp)
  rename_i hlen
  split at h
  · exact Option.noConfusion h
  rename_i s1 hs1
  split at h
  · exact absurd h (by simp)
  rename_i hs1v
  split at h
  · exact Option.noConfusion h
  rename_i s2 hs2
  split at h
  · exact absurd h (by simp)
  rename_i hs2v
  split at h
  · exact Option.noConfusion h
  rename_i s3 hs3
  split at h
  · exact absurd h (by simp)
  rename_i hs3v
  split at h
  · exact Option.noConfusion h
  rename_i s4 hs4
  split at h
  · exact absurd h (by simp)
  rename_i hs4v
  split at h
  · exact Option.noConfusion h
  rename_i s5 hs5
  split at h
  · exact absurd h (by simp)
  rename_i hs5v
  have hlenB : utf8Len l = 23 := by omega
  have hs1e : s1 = [':'] := not_not.mp hs1v
  have hs2e : s2 = ['-', '>'] := not_not.mp hs2v
  have h3hex : s3.all isRustHexDigit = true := not_not.mp hs3v
  have h4hex : s4.all isRustHexDigit = true := not_not.mp hs4v
  have h5hex : s5.all isRustHexDigit = true := not_not.mp hs5v
  subst hs1e hs2e
  -- decompose via the five slices
  obtain ⟨a0, b0, he0, ha0, hx0⟩ := byteSlice_spec hs3
  have ha0e : a0 = [] := eq_nil_of_utf8Len_eq_zero ha0
  subst ha0e
  simp only [List.nil_append] at he0
  obtain ⟨a1, b1, he1, ha1, hx1⟩ := byteSlice_spec hs1
  rw [List.append_assoc] at he1
  obtain ⟨rfl, hb0⟩ := append_inj_utf8Len (he0.symm.trans he1) (by omega)
  obtain ⟨a2, b2, he2, ha2, hx2⟩ := byteSlice_spec hs4
  rw [List.append_assoc] at he2
  have he0a : l = (s3 ++ [':']) ++ b1 := by simp [he0, hb0]
  obtain ⟨ha2e, hb1⟩ := append_inj_utf8Len (he0a.symm.trans he2)
    (by rw [utf8Len_append, hx0, ha2]; decide)
  obtain ⟨a3, b3, he3, ha3, hx3⟩ := byteSlice_spec hs2
  rw [List.append_assoc] at he3
  have he0b : l = ((s3 ++ [':']) ++ s4) ++ b2 := by simp [he0, hb0, hb1]
  obtain ⟨ha3e, hb2⟩ := append_inj_utf8Len (he0b.symm.trans he3)
    (by rw [utf8Len_append, utf8Len_append, hx0, hx2, ha3]; decide)
  obtain ⟨a4, b4, he4, ha4, hx4⟩ := byteSlice_spec hs5
  rw [List.append_assoc] at he4
  have he0c : l = (((s3 ++ [':']) ++ s4) ++ ['-', '>']) ++ b3 := by
    simp [he0, hb0, hb1, hb2]
  obtain ⟨ha4e, hb3⟩ := append_inj_utf8Len (he0c.symm.trans he4)
    (by rw [utf8Len_append, utf8Len_append, utf8Len_append, hx0, hx2, ha4]; decide)
  have hfull : l = s3 ++ [':'] ++ s4 ++ ['-', '>'] ++ s5 ++ b4 := by
    simp [he0, hb0, hb1, hb2, hb3]
  have hb4 : b4 = [] := by
    apply eq_nil_of_utf8Len_eq_zero
    rw [hfull] at hlenB
    simp only [utf8Len_append] at hlenB
    have hc1 : utf8Len [':'] = 1 := by decide
    have hc2 : utf8Len ['-', '>'] = 2 := by decide
    omega
  subst hb4
  refine ⟨s3, s4, s5, ?_, h3hex, h4hex, h5hex,
    hex_all_len h3hex hx0, hex_all_len h4hex hx2, hex_all_len h5hex hx4⟩
  simp [hfull]

theorem decomp_ascii {A B C : RustStr} (hAh : A.all isRustHexDigit = true)
    (hBh : B.all isRustHexDigit = true) (hCh : C.all isRustHexDigit = true) :
    ∀ c ∈ A ++ ':' :: (B ++ '-' :: '>' :: C), charSize c = 1 := by
  intro c hc
  simp only [List.mem_append, List.mem_cons] at hc
  rcases hc with h | h | h | h | h | h
  · exact charSize_of_hex (List.all_eq_true.mp hAh c h)
  · subst h; decide
  · exact charSize_of_hex (List.all_eq_true.mp hBh c h)
  · subst h; decide
  · subst h; decide
  · exact charSize_of_hex (List.all_eq_true.mp hCh c h)

theorem decomp_length {A B C : RustStr} (hA : A.length = 16) (hB : B.length = 2)
    (hC : C.length = 2) : (A ++ ':' :: (B ++ '-' :: '>' :: C)).length = 23 := by
  simp [hA, hB, hC]

theorem decomp_take16 {A B C : RustStr} (hA : A.length = 16) :
    (A ++ ':' :: (B ++ '-' :: '>' :: C)).take 16 = A := by
  rw [← hA, List.take_left]

theorem decomp_drop16 {A B C : RustStr} (hA : A.length = 16) :
    (A ++ ':' :: (B ++ '-' :: '>' :: C)).drop 16 = ':' :: (B ++ '-' :: '>' :: C) := by
  rw [← hA, List.drop_left]

theorem decomp_drop17 {A B C : RustStr} (hA : A.length = 16) :
    (A ++ ':' :: (B ++ '-' :: '>' :: C)).drop 17 = B ++ '-' :: '>' :: C := by
  have he : A ++ ':' :: (B ++ '-' :: '>' :: C) = (A ++ [':']) ++ (B ++ '-' :: '>' :: C) := by
    simp
  have hl : (A ++ [':']).length = 17 := by simp [hA]
  rw [he, ← hl, List.drop_left]

theorem decomp_drop19 {A B C : RustStr} (hA : A.length = 16) (hB : B.length = 2) :
    (A ++ ':' :: (B ++ '-' :: '>' :: C)).drop 19 = '-' :: '>' :: C := by
  have he : A ++ ':' :: (B ++ '-' :: '>' :: C) = ((A ++ [':']) ++ B) ++ ('-' :: '>' :: C) := by
    simp
  have hl : ((A ++ [':']) ++ B).length = 19 := by simp [hA, hB]
  rw [he, ← hl, List.drop_left]

theorem decomp_drop21 {A B C : RustStr} (hA : A.length = 16) (hB : B.length = 2) :
    (A ++ ':' :: (B ++ '-' :: '>' :: C)).drop 21 = C := by
  have he : A ++ ':' :: (B ++ '-' :: '>' :: C) = (((A ++ [':']) ++ B) ++ ['-', '>']) ++ C := by
    simp
  have hl : (((A ++ [':']) ++ B) ++ ['-', '>']).length = 21 := by simp [hA, hB]
  rw [he, ← hl, List.drop_left]

/-- The validator accepts every line of the decomposed shape. -/
theorem check_eval {A B C : RustStr} (hA : A.length = 16) (hB : B.length = 2)
    (hC : C.length = 2) (hAh : A.all isRustHexDigit = true)
    (hBh : B.all isRustHexDigit = true) (hCh : C.all isRustHexDigit = true) :
    F1337Patch.check_patch_line_format (A ++ ':' :: (B ++ '-' :: '>' :: C))
      = some (Except.ok ()) := by
  have hascii := decomp_ascii hAh hBh hCh
  have hlen := decomp_length hA hB hC
  have hu : utf8Len (A ++ ':' :: (B ++ '-' :: '>' :: C)) = 23 := by
    rw [utf8Len_ascii hascii, hlen]
  have e1 : byteSlice (A ++ ':' :: (B ++ '-' :: '>' :: C)) 16 17 = some [':'] := by
    rw [ascii_byteSlice hascii (by omega) (by omega), decomp_drop16 hA]
    simp
  have e2 : byteSlice (A ++ ':' :: (B ++ '-' :: '>' :: C)) 19 21 = some ['-', '>'] := by
    rw [ascii_byteSlice hascii (by omega) (by omega), decomp_drop19 hA hB]
    simp
  have e3 : byteSlice (A ++ ':' :: (B ++ '-' :: '>' :: C)) 0 16 = some A := by
    rw [ascii_byteSlice hascii (by omega) (by omega)]
    simp [decomp_take16 hA]
  have e4 : byteSlice (A ++ ':' :: (B ++ '-' :: '>' :: C)) 17 19 = some B := by
    rw [ascii_byteSlice hascii (by omega) (by omega), decomp_drop17 hA]
    rw [show (19 : Nat) - 17 = 2 from rfl, ← hB, List.take_left]
  have e5 : byteSlice (A ++ ':' :: (B ++ '-' :: '>' :: C)) 21 23 = some C := by
    rw [ascii_byteSlice hascii (by omega) (by omega), decomp_drop21 hA hB]
    rw [show (23 : Nat) - 21 = 2 from rfl, ← hC, List.take_length]
  unfold F1337Patch.check_patch_line_format
  rw [if_neg (by omega)]
  simp only [e1, e2, e3, e4, e5]
  simp [hAh, hBh, hCh]

theorem lineValidSpec_iff {l : RustStr} : lineValidSpec l = true ↔
    l.length = 23 ∧ (l.drop 16).take 1 = [':'] ∧ (l.drop 19).take 2 = ['-', '>']
      ∧ (l.take 16).all isRustHexDigit = true
      ∧ ((l.drop 17).take 2).all isRustHexDigit = true
      ∧ ((l.drop 21).take 2).all isRustHexDigit = true := by
  unfold lineValidSpec
  simp [Bool.and_eq_true, and_assoc]

/-- The validator accepts exactly the lines satisfying the spec grammar. -/
theorem check_ok_iff (l : RustStr) :
    F1337Patch.check_patch_line_format l = some (Except.ok ()) ↔ lineValidSpec l = true := by
  constructor
  · intro h
    obtain ⟨A, B, C, rfl, hAh, hBh, hCh, hA, hB, hC⟩ := check_ok_decomp h
    rw [lineValidSpec_iff]
    refine ⟨decomp_length hA hB hC, ?_, ?_, ?_, ?_, ?_⟩
    · rw [decomp_drop16 hA]; simp
    · rw [decomp_drop19 hA hB]; simp
    · rw [decomp_take16 hA]; exact hAh
    · rw [decomp_drop17 hA, ← hB, List.take_left]; exact hBh
    · rw [decomp_drop21 hA hB, ← hC, List.take_length]; exact hCh
  · intro h
    rw [lineValidSpec_iff] at h
    obtain ⟨h1, h2, h3, h4, h5, h6⟩ := h
    have h16 : l.drop 16 = ':' :: l.drop 17 := by
      conv_lhs => rw [← List.take_append_drop 1 (l.drop 16)]
      rw [h2, List.drop_drop]
      rfl
    have h17 : l.drop 17 = (l.drop 17).take 2 ++ l.drop 19 := by
      conv_lhs => rw [← List.take_append_drop 2 (l.drop 17)]
      rw [List.drop_drop]
    have h19 : l.drop 19 = '-' :: '>' :: l.drop 21 := by
      conv_lhs => rw [← List.take_append_drop 2 (l.drop 19)]
      rw [h3, List.drop_drop]
      rfl
    have hdecomp : l = l.take 16 ++ ':' :: ((l.drop 17).take 2 ++ '-' :: '>' :: l.drop 21) := by
      conv_lhs => rw [← List.take_append_drop 16 l, h16, h17, h19]
    have hA : (l.take 16).length = 16 := by
      rw [List.length_take]
      omega
    have hB : ((l.drop 17).take 2).length = 2 := by
      rw [List.length_take, List.length_drop]
      omega
    have hC : (l.drop 21).length = 2 := by
      rw [List.length_drop]
      omega
    have h6A : (l.drop 21).all isRustHexDigit = true := by
      rw [← hC, List.take_length] at h6
      exact h6
    rw [hdecomp]
    exact check_eval hA hB hC h4 h5 h6A

/-- The validator only ever returns acceptance, `WrongFormat`, or a panic. -/
theorem check_result_shape (line : RustStr) :
    F1337Patch.check_patch_line_format line = some (Except.ok ())
      ∨ F1337Patch.check_patch_line_format line = some (Except.error PatchFileError.WrongFormat)
      ∨ F1337Patch.check_patch_line_format line = none := by
  unfold F1337Patch.check_patch_line_format
  split
  · right; left; rfl
  split
  · right; right; rfl
  split
  · right; left; rfl
  split
  · right; right; rfl
  split
  · right; left; rfl
  split
  · right; right; rfl
  split
  · right; left; rfl
  split
  · right; right; rfl
  split
  · right; left; rfl
  split
  · right; right; rfl
  split
  · right; left; rfl
  left; rfl

/-- On a line whose characters are all one UTF-8 byte, every byte index is a
character boundary, so the validator cannot panic. -/
theorem check_ascii_total {line : RustStr} (h : ∀ c ∈ line, charSize c = 1) :
    F1337Patch.check_patch_line_format line ≠ none := by
  intro hnone
  unfold F1337Patch.check_patch_line_format at hnone
  split at hnone
  · exact Option.noConfusion hnone
  rename_i hlen
  have hlenB : line.length = 23 := by rw [← utf8Len_ascii h]; omega
  have e1 : byteSlice line 16 17 = some ((line.drop 16).take 1) := by
    have h2 := ascii_byteSlice h (show (16 : Nat) ≤ 17 by omega)
      (show 17 ≤ line.length by omega)
    simpa using h2
  have e2 : byteSlice line 19 21 = some ((line.drop 19).take 2) := by
    have h2 := ascii_byteSlice h (show (19 : Nat) ≤ 21 by omega)
      (show 21 ≤ line.length by omega)
    simpa using h2
  have e3 : byteSlice line 0 16 = some ((line.drop 0).take 16) := by
    have h2 := ascii_byteSlice h (show (0 : Nat) ≤ 16 by omega)
      (show 16 ≤ line.length by omega)
    simpa using h2
  have e4 : byteSlice line 17 19 = some ((line.drop 17).take 2) := by
    have h2 := ascii_byteSlice h (show (17 : Nat) ≤ 19 by omega)
      (show 19 ≤ line.length by omega)
    simpa using h2
  have e5 : byteSlice line 21 23 = some ((line.drop 21).take 2) := by
    have h2 := ascii_byteSlice h (show (21 : Nat) ≤ 23 by omega)
      (show 23 ≤ line.length by omega)
    simpa using h2
  split at hnone
  · rename_i heq
    rw [e1] at heq
    exact Option.noConfusion heq
  split at hnone
  · exact Option.noConfusion hnone
  split at hnone
  · rename_i heq
    rw [e2] at heq
    exact Option.noConfusion heq
  split at hnone
  · exact Option.noConfusion hnone
  split at hnone
  · rename_i heq
    rw [e3] at heq
    exact Option.noConfusion heq
  split at hnone
  · exact Option.noConfusion hnone
  split at hnone
  · rename_i heq
    rw [e4] at heq
    exact Option.noConfusion heq
  split at hnone
  · exact Option.noConfusion hnone
  split at hnone
  · rename_i heq
    rw [e5] at heq
    exact Option.noConfusion heq
  split at hnone
  · exact Option.noConfusion hnone
  exact Option.noConfusion hnone

/-- On an accepted line, decoding succeeds and produces exactly the
field decoding; in particular the `ConvertionError` branch is unreachable. -/
theorem validLine_get {l : RustStr}
    (h : F1337Patch.check_patch_line_format l = some (Except.ok ())) :
    F1337Patch.get_hex_patch_from_line l = some (Except.ok (specDecode l)) := by
  obtain ⟨A, B, C, hdec, hAh, hBh, hCh, hA, hB, hC⟩ := check_ok_decomp h
  subst hdec
  have hascii := decomp_ascii hAh hBh hCh
  have hlen := decomp_length hA hB hC
  have e3 : byteSlice (A ++ ':' :: (B ++ '-' :: '>' :: C)) 0 16 = some A := by
    rw [ascii_byteSlice hascii (show (0 : Nat) ≤ 16 by omega)
      (show 16 ≤ (A ++ ':' :: (B ++ '-' :: '>' :: C)).length by omega)]
    simp [decomp_take16 hA]
  have e4 : byteSlice (A ++ ':' :: (B ++ '-' :: '>' :: C)) 17 19 = some B := by
    rw [ascii_byteSlice hascii (show (17 : Nat) ≤ 19 by omega)
      (show 19 ≤ (A ++ ':' :: (B ++ '-' :: '>' :: C)).length by omega), decomp_drop17 hA]
    rw [show (19 : Nat) - 17 = 2 from rfl, ← hB, List.take_left]
  have e5 : byteSlice (A ++ ':' :: (B ++ '-' :: '>' :: C)) 21 23 = some C := by
    rw [ascii_byteSlice hascii (show (21 : Nat) ≤ 23 by omega)
      (show 23 ≤ (A ++ ':' :: (B ++ '-' :: '>' :: C)).length by omega), decomp_drop21 hA hB]
    rw [show (23 : Nat) - 21 = 2 from rfl, ← hC, List.take_length]
  have hAne : A ≠ [] := by intro he; rw [he] at hA; simp at hA
  have hBne : B ≠ [] := by intro he; rw [he] at hB; simp at hB
  have hCne : C ≠ [] := by intro he; rw [he] at hC; simp at hC
  have rA : from_str_radix16 64 A = Except.ok (hexValue A) := by
    apply from_str_radix16_hex hAne hAh
    have := hexValue_lt hAh
    rw [hA] at this
    calc hexValue A < 16 ^ 16 := this
      _ = 2 ^ 64 := by norm_num
  have rB : from_str_radix16 8 B = Except.ok (hexValue B) := by
    apply from_str_radix16_hex hBne hBh
    have := hexValue_lt hBh
    rw [hB] at this
    calc hexValue B < 16 ^ 2 := this
      _ = 2 ^ 8 := by norm_num
  have rC : from_str_radix16 8 C = Except.ok (hexValue C) := by
    apply from_str_radix16_hex hCne hCh
    have := hexValue_lt hCh
    rw [hC] at this
    calc hexValue C < 16 ^ 2 := this
      _ = 2 ^ 8 := by norm_num
  unfold F1337Patch.get_hex_patch_from_line
  rw [h]
  simp only [e3, rA, e4, rB, e5, rC]
  have tB : (B ++ '-' :: '>' :: C).take 2 = B := by rw [← hB, List.take_left]
  have tC : C.take 2 = C := by rw [← hC, List.take_length]
  unfold specDecode
  rw [decomp_take16 hA, decomp_drop17 hA, decomp_drop21 hA hB, tB, tC]

/-! ### Rendering (`{:016X}:{:02X}->{:02X}`) -/

theorem hexDigitUpper_hex {d : Nat} (hd : d < 16) :
    isRustHexDigit (hexDigitUpper d) = true := by
  interval_cases d <;> decide

theorem hexDigitVal_hexDigitUpper {d : Nat} (hd : d < 16) :
    hexDigitVal (hexDigitUpper d) = d := by
  interval_cases d <;> decide

theorem padHex_length (w : Nat) : ∀ n, (padHex w n).length = w := by
  induction w with
  | zero => intro n; rfl
  | succ w ih => intro n; simp [padHex, ih]

theorem padHex_all_hex (w : Nat) : ∀ n, n < 16 ^ w → (padHex w n).all isRustHexDigit = true := by
  induction w with
  | zero => intro n _; rfl
  | succ w ih =>
    intro n h
    have h1 : n / 16 < 16 ^ w := by
      rw [Nat.div_lt_iff_lt_mul (by norm_num : (0 : Nat) < 16)]
      rw [pow_succ] at h
      exact h
    have h2 : n % 16 < 16 := Nat.mod_lt n (by norm_num)
    simp [padHex, List.all_append, ih _ h1, hexDigitUpper_hex h2]

theorem hexValue_append_digit (a : RustStr) (c : Char) :
    hexValue (a ++ [c]) = hexValue a * 16 + hexDigitVal c := by
  simp [hexValue, List.foldl_append]

theorem hexValue_padHex (w : Nat) : ∀ n, n < 16 ^ w → hexValue (padHex w n) = n := by
  induction w with
  | zero =>
    intro n h
    have : n = 0 := by simpa using h
    simp [padHex, hexValue, this]
  | succ w ih =>
    intro n h
    have h1 : n / 16 < 16 ^ w := by
      rw [Nat.div_lt_iff_lt_mul (by norm_num : (0 : Nat) < 16)]
      rw [pow_succ] at h
      exact h
    have h2 : n % 16 < 16 := Nat.mod_lt n (by norm_num)
    unfold padHex
    rw [hexValue_append_digit, ih _ h1, hexDigitVal_hexDigitUpper h2]
    omega

/-! ### Line reading -/

theorem readLine_append {p : RustStr} (hp : '\n' ∉ p) (r : RustStr) :
    readLine (p ++ '\n' :: r) = (p ++ ['\n'], r) := by
  induction p with
  | nil => simp [readLine]
  | cons c t ih =>
    have hc : c ≠ '\n' := fun he => hp (he ▸ List.mem_cons_self c t)
    have ht : '\n' ∉ t := fun htA => hp (List.mem_cons_of_mem c htA)
    simp [readLine, hc, ih ht]

theorem readLine_snd_length : ∀ s : RustStr, (readLine s).2.length ≤ s.length := by
  intro s
  induction s with
  | nil => simp [readLine]
  | cons c t ih =>
    unfold readLine
    split
    · simp
    · simp only []
      calc (readLine t).2.length ≤ t.length := ih
        _ ≤ (c :: t).length := by simp

theorem readLine_snd_cons_length (c : Char) (t : RustStr) :
    (readLine (c :: t)).2.length ≤ t.length := by
  unfold readLine
  split
  · simp
  · simpa using readLine_snd_length t

theorem stripLineEnd_append_newline {l : RustStr} (hl : ∀ c ∈ l, c ≠ '\r') :
    stripLineEnd (l ++ ['\n']) = l := by
  unfold stripLineEnd
  have hrev : (l ++ ['\n']).reverse = '\n' :: l.reverse := by simp
  rw [hrev]
  split
  · rename_i t heq
    exfalso
    have h2 : l.reverse = '\r' :: t := by
      injection heq with h1 h2
    have h3 : '\r' ∈ l := by
      rw [← List.mem_reverse, h2]
      exact List.mem_cons_self _ _
    exact hl '\r' h3 rfl
  · rename_i t hno heq
    have h2 : l.reverse = t := by
      injection heq with h1 h2
    rw [← h2, List.reverse_reverse]
  · rename_i hne1 hne2
    exact absurd rfl (hne2 l.reverse)

theorem rustLinesFuel_step {fuel : Nat} {s : RustStr} (hs : s ≠ []) :
    rustLinesFuel (fuel + 1) s
      = stripLineEnd (readLine s).1 :: rustLinesFuel fuel (readLine s).2 := by
  cases s with
  | nil => exact absurd rfl hs
  | cons c t => rfl

theorem rustLinesFuel_congr : ∀ (f1 f2 : Nat) (s : RustStr),
    s.length ≤ f1 → s.length ≤ f2 → rustLinesFuel f1 s = rustLinesFuel f2 s := by
  intro f1
  induction f1 with
  | zero =>
    intro f2 s h1 _
    have hs : s = [] := List.eq_nil_of_length_eq_zero (Nat.le_zero.mp h1)
    subst hs
    cases f2 <;> rfl
  | succ f ih =>
    intro f2 s h1 h2
    cases s with
    | nil => cases f2 <;> rfl
    | cons c t =>
      cases f2 with
      | zero => simp at h2
      | succ f2b =>
        rw [rustLinesFuel_step (by simp), rustLinesFuel_step (by simp)]
        congr 1
        have hr := readLine_snd_cons_length c t
        apply ih
        · simp at h1; omega
        · simp at h2; omega

theorem rustLines_cons {l : RustStr} (hl : '\n' ∉ l) (rest : RustStr) :
    rustLines (l ++ '\n' :: rest) = stripLineEnd (l ++ ['\n']) :: rustLines rest := by
  unfold rustLines
  have hlen : (l ++ '\n' :: rest).length = (l.length + rest.length) + 1 := by
    simp [List.length_append]
    omega
  rw [hlen, rustLinesFuel_step (by simp), readLine_append hl]
  congr 1
  exact rustLinesFuel_congr _ _ rest (by omega) (le_refl _)

/-! ### The parsing loop and filename extraction -/

theorem processLines_valid : ∀ (ls : List RustStr),
    (∀ l ∈ ls, F1337Patch.check_patch_line_format l = some (Except.ok ())) →
    processLines ls = some (Except.ok (ls.map specDecode)) := by
  intro ls
  induction ls with
  | nil => intro _; rfl
  | cons l t ih =>
    intro h
    have h1 := validLine_get (h l (List.mem_cons_self l t))
    unfold processLines
    rw [h1, ih (fun x hx => h x (List.mem_cons_of_mem l hx))]
    rfl

theorem rustTrimEnd_append_ws {t : RustStr} {c : Char} (hc : rustIsWhitespace c = true) :
    rustTrimEnd (t ++ [c]) = rustTrimEnd t := by
  unfold rustTrimEnd
  simp [List.reverse_append, List.dropWhile_cons, hc]

theorem get_filename_header (t : RustStr) (sz : Nat) :
    F1337Patch.get_filename (('>' :: t) ++ ['\n']) sz = Except.ok (rustTrimEnd t) := by
  have h1 : F1337Patch.get_filename ('>' :: (t ++ ['\n'])) sz
      = Except.ok (rustTrimEnd (t ++ ['\n'])) := rfl
  rw [show (('>' :: t) ++ ['\n']) = '>' :: (t ++ ['\n']) from by simp, h1,
    rustTrimEnd_append_ws (by decide)]

theorem get_filename_err {fl : RustStr} (hfl : fl.head? ≠ some '>') (sz : Nat) :
    F1337Patch.get_filename fl sz = Except.error PatchFileError.WrongFormat := by
  unfold F1337Patch.get_filename
  split
  · rename_i rest
    exact absurd rfl hfl
  · rfl

/-! ### Construction API -/

theorem foldl_add_patch (s : F1337Patch) (ps : List HexPatch) :
    (ps.foldl F1337Patch.add_patch s).patches = s.patches ++ ps := by
  induction ps generalizing s with
  | nil => simp
  | cons p t ih => simp [List.foldl_cons, ih, F1337Patch.add_patch]

theorem validLine_chars {l : RustStr}
    (h : F1337Patch.check_patch_line_format l = some (Except.ok ())) :
    '\n' ∉ l ∧ ∀ c ∈ l, c ≠ '\r' := by
  obtain ⟨A, B, C, rfl, hAh, hBh, hCh, hA, hB, hC⟩ := check_ok_decomp h
  have hx : ∀ c ∈ A ++ ':' :: (B ++ '-' :: '>' :: C), c ≠ '\n' ∧ c ≠ '\r' := by
    intro c hc
    simp only [List.mem_append, List.mem_cons] at hc
    rcases hc with h1 | h1 | h1 | h1 | h1 | h1
    · exact ⟨hex_ne_newline (List.all_eq_true.mp hAh c h1),
        hex_ne_cr (List.all_eq_true.mp hAh c h1)⟩
    · subst h1; exact ⟨by decide, by decide⟩
    · exact ⟨hex_ne_newline (List.all_eq_true.mp hBh c h1),
        hex_ne_cr (List.all_eq_true.mp hBh c h1)⟩
    · subst h1; exact ⟨by decide, by decide⟩
    · subst h1; exact ⟨by decide, by decide⟩
    · exact ⟨hex_ne_newline (List.all_eq_true.mp hCh c h1),
        hex_ne_cr (List.all_eq_true.mp hCh c h1)⟩
  exact ⟨fun hm => (hx '\n' hm).1 rfl, fun c hc => (hx c hc).2⟩

theorem rustLines_join_valid : ∀ (ls : List RustStr),
    (∀ l ∈ ls, F1337Patch.check_patch_line_format l = some (Except.ok ())) →
    rustLines ((ls.map (fun l => l ++ ['\n'])).join) = ls := by
  intro ls
  induction ls with
  | nil => intro _; rfl
  | cons l t ih =>
    intro h
    have hc := validLine_chars (h l (List.mem_cons_self l t))
    have hshape : ((l :: t).map (fun x => x ++ ['\n'])).join
        = l ++ '\n' :: ((t.map (fun x => x ++ ['\n'])).join) := by
      simp
    rw [hshape, rustLines_cons hc.1, stripLineEnd_append_newline hc.2,
      ih (fun x hx => h x (List.mem_cons_of_mem l hx))]

/-! ### The claims -/

/-- Claim C1: for every input made of a valid header line (`>` followed by
text without a newline) and `N` patch lines each satisfying the 23-character
grammar, `F1337Patch::new` succeeds and returns exactly `N` patches, the i-th
being the hex decoding of the i-th line (address from bytes [0,16), old from
[17,19), new from [21,23)), in order; a header-only input (`N = 0`) yields
zero patches and no error. -/
theorem claim_C1 (t : RustStr) (ls : List RustStr)
    (ht : '\n' ∉ t)
    (hl : ∀ l ∈ ls, lineValidSpec l = true) :
    F1337Patch.new (('>' :: t) ++ '\n' :: ((ls.map (fun l => l ++ ['\n'])).join))
      = some (Except.ok (F1337Patch.mk (rustTrimEnd t) (ls.map specDecode)))
      ∧ (ls.map specDecode).length = ls.length := by
  have hlA : ∀ l ∈ ls, F1337Patch.check_patch_line_format l = some (Except.ok ()) :=
    fun l hm => (check_ok_iff l).mpr (hl l hm)
  constructor
  · have hht : '\n' ∉ ('>' :: t) := by
      intro hm
      rcases List.mem_cons.mp hm with h1 | h1
      · exact absurd h1 (by decide)
      · exact ht h1
    have hread := readLine_append hht ((ls.map (fun l => l ++ ['\n'])).join)
    have h1 : (readLine (('>' :: t) ++ '\n' :: ((ls.map (fun l => l ++ ['\n'])).join))).1
        = ('>' :: t) ++ ['\n'] := by rw [hread]
    have h2 : (readLine (('>' :: t) ++ '\n' :: ((ls.map (fun l => l ++ ['\n'])).join))).2
        = (ls.map (fun l => l ++ ['\n'])).join := by rw [hread]
    unfold F1337Patch.new
    rw [h1, h2, get_filename_header, rustLines_join_valid ls hlA,
      processLines_valid ls hlA]
  · simp

theorem claim_C1_witness :
    F1337Patch.new (('>' :: "test.exe".data)
        ++ '\n' :: (([("0000000000AF0200:13->37".data : RustStr)].map (fun l => l ++ ['\n'])).join))
      = some (Except.ok (F1337Patch.mk (rustTrimEnd ("test.exe".data))
          ([("0000000000AF0200:13->37".data : RustStr)].map specDecode))) :=
  (claim_C1 ("test.exe".data) [("0000000000AF0200:13->37".data : RustStr)]
    (by decide) (by decide)).1

/-- Claim C2 (amended): line validation accepts a line exactly when it has
byte length 23 with `:` at 16, `->` at 19-20 and hex digits in the three
fields; a line that deviates yields the `WrongFormat` error unless the
validator panics, which can only happen when some fixed byte index falls
inside a multi-byte character (never on an all-ASCII line). -/
theorem claim_C2 (line : RustStr) :
    (F1337Patch.check_patch_line_format line = some (Except.ok ())
      ↔ lineValidSpec line = true)
    ∧ (lineValidSpec line = false →
        F1337Patch.check_patch_line_format line = some (Except.error PatchFileError.WrongFormat)
        ∨ F1337Patch.check_patch_line_format line = none)
    ∧ ((∀ c ∈ line, charSize c = 1) → F1337Patch.check_patch_line_format line ≠ none) := by
  refine ⟨check_ok_iff line, ?_, fun h => check_ascii_total h⟩
  intro hv
  rcases check_result_shape line with h | h | h
  · exact absurd ((check_ok_iff line).mp h) (by simp [hv])
  · exact Or.inl h
  · exact Or.inr h

theorem claim_C2_witness :
    F1337Patch.check_patch_line_format ("0000000000AF0200:13->37".data)
      = some (Except.ok ()) :=
  (claim_C2 ("0000000000AF0200:13->37".data)).1.mpr (by decide)

theorem claim_C2_counterexample :
    lineValidSpec ("000000000000000é:13->3".data) = false
      ∧ utf8Len ("000000000000000é:13->3".data) = 23
      ∧ F1337Patch.check_patch_line_format ("000000000000000é:13->3".data) = none :=
  ⟨by decide, by decide, by decide⟩

/-- Claim C3: the code at the failing input.  `get_filename` runs
`first_line[1..].trim_end()`, which strips a trailing space or tab from the
filename, although both the spec and the comment in the source
(src/src/lib.rs:387, "Trim the end to remove the \n (and \r\n on windows)")
require only line-ending characters to be stripped. -/
theorem claim_C3 :
    F1337Patch.get_filename ('>' :: 't' :: ' ' :: '\n' :: []) 4 = Except.ok ['t']
      ∧ F1337Patch.get_filename ('>' :: 't' :: '\t' :: '\n' :: []) 4 = Except.ok ['t'] :=
  ⟨by decide, by decide⟩

/-- Claim C4 (amended): equality between two errors of the same kind compares
the `to_string()` rendering of the wrapped causes — the full message text —
not the identity/kind of the cause; `WrongFormat` values are always equal, and
errors of different kinds are never equal. -/
theorem claim_C4 (a b : PreviousError) :
    PatchFileError.eq (PatchFileError.ConvertionError a) (PatchFileError.ConvertionError b)
      = (a.error.msg == b.error.msg)
    ∧ PatchFileError.eq (PatchFileError.ReadError a) (PatchFileError.ReadError b)
      = (a.error.msg == b.error.msg)
    ∧ PatchFileError.eq PatchFileError.WrongFormat PatchFileError.WrongFormat = true
    ∧ PatchFileError.eq (PatchFileError.ConvertionError a) (PatchFileError.ReadError b) = false
    ∧ PatchFileError.eq (PatchFileError.ReadError a) PatchFileError.WrongFormat = false :=
  ⟨rfl, rfl, rfl, rfl, rfl⟩

theorem claim_C4_witness :
    PatchFileError.eq
      (PatchFileError.ConvertionError (PreviousError.mk "f" "src/lib.rs" 1
        (ErrorCause.mk "kindA" "same message")))
      (PatchFileError.ConvertionError (PreviousError.mk "g" "src/lib.rs" 2
        (ErrorCause.mk "kindB" "same message")))
      = true := by
  have h := (claim_C4 (PreviousError.mk "f" "src/lib.rs" 1 (ErrorCause.mk "kindA" "same message"))
    (PreviousError.mk "g" "src/lib.rs" 2 (ErrorCause.mk "kindB" "same message"))).1
  rw [h]
  decide

theorem claim_C4_counterexample :
    (ErrorCause.mk "ParseIntError" "invalid digit found in string").kind
      = (ErrorCause.mk "ParseIntError" "number too large to fit in target type").kind
    ∧ PatchFileError.eq
        (PatchFileError.ConvertionError (PreviousError.mk "F1337Patch::get_hex_patch_from_line"
          "src/lib.rs" 363 (ErrorCause.mk "ParseIntError" "invalid digit found in string")))
        (PatchFileError.ConvertionError (PreviousError.mk "F1337Patch::get_hex_patch_from_line"
          "src/lib.rs" 363 (ErrorCause.mk "ParseIntError" "number too large to fit in target type")))
      = false :=
  ⟨rfl, by decide⟩

/-- Claim C5: the construction API — `new(target_filename)` yields an empty
patch set (zero entries, never errors) and `add_patch` called `N` times
appends each patch at the end in call order, with no deduplication and no
validation, giving a sequence of length `N`. -/
theorem claim_C5 (f : RustStr) (ps : List HexPatch) :
    (F1337Patch.newFromFilename f).patches = []
    ∧ (F1337Patch.newFromFilename f).target_filename = f
    ∧ (ps.foldl F1337Patch.add_patch (F1337Patch.newFromFilename f)).patches = ps
    ∧ (ps.foldl F1337Patch.add_patch (F1337Patch.newFromFilename f)).patches.length
        = ps.length := by
  refine ⟨rfl, rfl, ?_, ?_⟩
  · rw [foldl_add_patch]
    rfl
  · rw [foldl_add_patch]
    simp [F1337Patch.newFromFilename]

theorem claim_C5_witness :
    ([HexPatch.mk 1 2 3, HexPatch.mk 1 2 3].foldl F1337Patch.add_patch
      (F1337Patch.newFromFilename ("a.exe".data))).patches
      = [HexPatch.mk 1 2 3, HexPatch.mk 1 2 3] :=
  (claim_C5 ("a.exe".data) [HexPatch.mk 1 2 3, HexPatch.mk 1 2 3]).2.2.1

/-- Claim C6: round-trip — rendering a `HexPatch` with `address < 2^64`,
`old < 256`, `new < 256` to its canonical 23-character form and re-parsing
that line yields an equal `HexPatch`. -/
theorem claim_C6 (a o n : Nat) (ha : a < 2 ^ 64) (ho : o < 256) (hn : n < 256) :
    F1337Patch.get_hex_patch_from_line (HexPatch.render (HexPatch.mk a o n))
      = some (Except.ok (HexPatch.mk a o n)) := by
  have ha16 : a < 16 ^ 16 := by
    calc a < 2 ^ 64 := ha
      _ = 16 ^ 16 := by norm_num
  have h256 : (16 : Nat) ^ 2 = 256 := by norm_num
  have ho16 : o < 16 ^ 2 := by omega
  have hn16 : n < 16 ^ 2 := by omega
  have hA : (padHex 16 a).length = 16 := padHex_length 16 a
  have hB : (padHex 2 o).length = 2 := padHex_length 2 o
  have hC : (padHex 2 n).length = 2 := padHex_length 2 n
  have hAh := padHex_all_hex 16 a ha16
  have hBh := padHex_all_hex 2 o ho16
  have hCh := padHex_all_hex 2 n hn16
  have hget := validLine_get (check_eval hA hB hC hAh hBh hCh)
  have hspec : specDecode (padHex 16 a ++ ':' :: (padHex 2 o ++ '-' :: '>' :: padHex 2 n))
      = HexPatch.mk a o n := by
    have tB : (padHex 2 o ++ '-' :: '>' :: padHex 2 n).take 2 = padHex 2 o := by
      have h2 := List.take_left (padHex 2 o) ('-' :: '>' :: padHex 2 n)
      rwa [hB] at h2
    have tC : (padHex 2 n).take 2 = padHex 2 n := by
      have h2 := List.take_length (padHex 2 n)
      rwa [hC] at h2
    unfold specDecode
    rw [decomp_take16 hA, decomp_drop17 hA, decomp_drop21 hA hB, tB, tC]
    rw [hexValue_padHex 16 a ha16, hexValue_padHex 2 o ho16, hexValue_padHex 2 n hn16]
  show F1337Patch.get_hex_patch_from_line
      (padHex 16 a ++ ':' :: (padHex 2 o ++ '-' :: '>' :: padHex 2 n))
    = some (Except.ok (HexPatch.mk a o n))
  rw [hget, hspec]

theorem claim_C6_witness :
    (0xAF0200 : Nat) < 2 ^ 64 ∧ (0x13 : Nat) < 256 ∧ (0x37 : Nat) < 256
    ∧ F1337Patch.get_hex_patch_from_line (HexPatch.render (HexPatch.mk 0xAF0200 0x13 0x37))
      = some (Except.ok (HexPatch.mk 0xAF0200 0x13 0x37)) :=
  ⟨by norm_num, by norm_num, by norm_num,
    claim_C6 0xAF0200 0x13 0x37 (by norm_num) (by norm_num) (by norm_num)⟩

/-- Claim C7: on any line that passes structural validation, the numeric
parses all succeed — decoding returns the decoded patch and the
`ConvertionError` branch is unreachable. -/
theorem claim_C7 (line : RustStr)
    (h : F1337Patch.check_patch_line_format line = some (Except.ok ())) :
    F1337Patch.get_hex_patch_from_line line = some (Except.ok (specDecode line))
      ∧ ∀ e, F1337Patch.get_hex_patch_from_line line
          ≠ some (Except.error (PatchFileError.ConvertionError e)) := by
  have h1 := validLine_get h
  refine ⟨h1, fun e he => ?_⟩
  rw [h1] at he
  exact Except.noConfusion (Option.some.inj he)

theorem claim_C7_witness :
    F1337Patch.get_hex_patch_from_line ("0000000000AF0200:13->37".data)
      = some (Except.ok (specDecode ("0000000000AF0200:13->37".data))) :=
  (claim_C7 ("0000000000AF0200:13->37".data) (by decide)).1

/-- Claim C8: whenever the first line of the source does not start with `>`,
parsing fails with the `WrongFormat` format error (not a read error) and no
`F1337Patch` is returned. -/
theorem claim_C8 (source : RustStr)
    (h : (readLine source).1.head? ≠ some '>') :
    F1337Patch.new source = some (Except.error PatchFileError.WrongFormat) := by
  unfold F1337Patch.new
  rw [get_filename_err h]

theorem claim_C8_witness :
    F1337Patch.new ("abc".data) = some (Except.error PatchFileError.WrongFormat) :=
  claim_C8 ("abc".data) (by decide)

/-- Claim C9: a completely empty source reads an empty first line, which
fails the `>` header check, so parsing returns `WrongFormat` (not success,
not a read error). -/
theorem claim_C9 :
    F1337Patch.new [] = some (Except.error PatchFileError.WrongFormat) := by
  decide

/-- Claim C10 (amended): on any line all of whose characters are single-byte
(in particular any ASCII line), and on any line of byte length other than 23,
the validator is total: it returns acceptance or the `WrongFormat` error and
cannot panic.  (On 23-byte lines where a multi-byte character straddles one
of the fixed byte indices it panics instead, see the counterexample.) -/
theorem claim_C10 (line : RustStr)
    (h : (∀ c ∈ line, charSize c = 1) ∨ utf8Len line ≠ 23) :
    F1337Patch.check_patch_line_format line = some (Except.ok ())
      ∨ F1337Patch.check_patch_line_format line
        = some (Except.error PatchFileError.WrongFormat) := by
  rcases check_result_shape line with hs | hs | hs
  · exact Or.inl hs
  · exact Or.inr hs
  · exfalso
    rcases h with h | h
    · exact check_ascii_total h hs
    · unfold F1337Patch.check_patch_line_format at hs
      rw [if_pos (by omega)] at hs
      exact Option.noConfusion hs

theorem claim_C10_witness :
    F1337Patch.check_patch_line_format ("0000000000AF0200:13->37".data)
        = some (Except.ok ())
      ∨ F1337Patch.check_patch_line_format ("0000000000AF0200:13->37".data)
        = some (Except.error PatchFileError.WrongFormat) :=
  claim_C10 ("0000000000AF0200:13->37".data) (Or.inl (by decide))

theorem claim_C10_counterexample :
    utf8Len ("0123456789abcdef:1é->3".data) = 23
      ∧ F1337Patch.check_patch_line_format ("0123456789abcdef:1é->3".data) = none :=
  ⟨by decide, by decide⟩

end PatchLib
